import Mathlib

/-!
Verification of the `@destinationstransfers/cache` storage engine against its
specification.  The development shallowly embeds:

* the content-addressable write/read path (`lib/content/write.js`,
  `lib/content/read.js`),
* the append-only bucketed key index (`lib/entry-index.js`),
* the mark-and-sweep verifier (`lib/verify.js`), and
* the `Map`-backed facade `DestCache` (`index.js`).

Machine-level collaborators that are not part of the repository (the `ssri`
integrity library, `crypto` hashes, the filesystem) are modelled explicitly;
each such definition carries a doc comment saying what it stands for.
-/

namespace DestrCache

/-- A byte payload, as a list of byte values. -/
abbrev Bytes := List Nat

/-- Modelled from the spec: the cryptographic hash over exact payload bytes
computed by the external `crypto`/`ssri` libraries ("for a fixed algorithm,
identical bytes always yield identical Digest").  We idealise the
collision-free hash as the identity on the byte list: deterministic and
injective, which is exactly what the spec assumes of it. -/
def hashBytes (data : Bytes) : Bytes := data

/-- An `ssri` integrity value restricted to a single algorithm, as produced by
`ssri.fromData(data, { algorithms: [algo] })`: an (algorithm, digest) pair. -/
structure Digest where
  algorithm : String
  digest : Bytes
deriving DecidableEq, Repr

/-- `ssri.fromData(data, { algorithms: [algo] })`. -/
def fromData (data : Bytes) (algo : String) : Digest :=
  { algorithm := algo, digest := hashBytes data }

/-- `ssri.checkData(data, sri)`: recompute the digest of `data` with the
digest's algorithm and compare. -/
def checkData (data : Bytes) (sri : Digest) : Bool :=
  hashBytes data == sri.digest

/-- Hex encoding of a value below 16, as used by `Integrity.hexDigest()`. -/
def hexChar (n : Nat) : Char :=
  if n < 10 then Char.ofNat (48 + n) else Char.ofNat (87 + n)

/-- Hex encoding of a byte list (`Integrity.hexDigest()` string, modelled at
the character-list level). -/
def hexEncode : Bytes → List Char
  | [] => []
  | b :: bs => hexChar (b / 16) :: hexChar (b % 16) :: hexEncode bs

/-- Value of a hex character, `none` when the character is not hex. -/
def hexVal (c : Char) : Option Nat :=
  if 48 ≤ c.toNat ∧ c.toNat ≤ 57 then some (c.toNat - 48)
  else if 97 ≤ c.toNat ∧ c.toNat ≤ 102 then some (c.toNat - 87)
  else none

/-- Hex decoding of a character list back into bytes. -/
def hexDecode : List Char → Option Bytes
  | [] => some []
  | [_] => none
  | c₁ :: c₂ :: cs =>
    match hexVal c₁, hexVal c₂, hexDecode cs with
    | some h, some l, some bs => some ((h * 16 + l) :: bs)
    | _, _, _ => none

/-- The stable string form of a digest, `<algorithm>-<hex-hash>` (spec §6),
modelled at the character-list level. -/
def digestChars (d : Digest) : List Char :=
  d.algorithm.toList ++ '-' :: hexEncode d.digest

/-- Split a character list at the first `-`, the parsing step of the digest
string form. -/
def splitDash : List Char → Option (List Char × List Char)
  | [] => none
  | c :: cs =>
    if c = '-' then some ([], cs)
    else match splitDash cs with
      | some (pre, post) => some (c :: pre, post)
      | none => none

/-- Parse the string form of a digest back into a `Digest`. -/
def digestParse (s : List Char) : Option Digest :=
  match splitDash s with
  | some (algo, hex) =>
    match hexDecode hex with
    | some bs => some { algorithm := String.mk algo, digest := bs }
    | none => none
  | none => none


/-- Point lookup. -/
def lookupA {α β : Type} [DecidableEq α] : List (α × β) → α → Option β
  | [], _ => none
  | p :: ps, k => if p.1 = k then some p.2 else lookupA ps k

/-- Insert-or-replace, keeping the position of an existing key (the JS `Map`
/ filesystem overwrite behaviour). -/
def setA {α β : Type} [DecidableEq α] : List (α × β) → α → β → List (α × β)
  | [], k, v => [(k, v)]
  | p :: ps, k, v => if p.1 = k then (k, v) :: ps else p :: setA ps k v

/-- Remove a key. -/
def removeA {α β : Type} [DecidableEq α] : List (α × β) → α → List (α × β)
  | [], _ => []
  | p :: ps, k => if p.1 = k then removeA ps k else p :: removeA ps k

/-! ### Content store (`lib/content/write.js`, `lib/content/read.js`)

The content-addressed filesystem: a temp workspace of uniquely named
in-progress files, and the published content tree keyed by the digest-derived
path (`contentPath(cache, sri)` is a deterministic function of the digest, so
the tree is keyed directly by `Digest`). -/

/-- Errors raised by the embedded operations, named after the `code` property
of the JS errors.  `typeErrorUndefinedPath` stands for the `TypeError` Node's
`fs` raises when a path argument is `undefined`. -/
inductive CacheErr where
  | ebadsize
  | eintegrity
  | enoent
  | typeErrorUndefinedPath
deriving DecidableEq, Repr

/-- The content store's filesystem state.  Temp files are identified by the
serial number drawn from `tmpCounter` (`uniqueFilename` produces a fresh name
per call). -/
structure ContentFS where
  tmpFiles : List (Nat × Bytes) := []
  content : List (Digest × Bytes) := []
  tmpCounter : Nat := 0
deriving DecidableEq, Repr

/-- Options accepted by `write` (`opts.size`, `opts.integrity`,
`opts.algorithms` restricted to the single supported algorithm). -/
structure WriteOpts where
  size : Option Nat := none
  integrity : Option Digest := none
  algorithm : String := "sha512"

/-- The result object of `write`: `{ integrity: sri, size: data.length }`. -/
structure WriteResult where
  integrity : Digest
  size : Nat
deriving DecidableEq, Repr

/-- The JS member access `tmp.target` inside `moveToDestination` of
`lib/content/write.js`.  `makeTmp` returns the plain tmp-path string produced
by `uniqueFilename`, and reading the `target` property off a string yields
`undefined`. -/
def tmpDotTarget (_tmpName : Nat) : Option Nat := none

/-- Modelled from the spec: `lib/util/move-file` (not under `src/`) renames a
temp file into its final digest-derived path ("atomically renames the temp
file into its final Digest-derived path").  Called with an `undefined` source
path it fails like the Node `fs` API with a `TypeError`; called on a missing
temp file it fails `ENOENT`. -/
def moveFile (st : ContentFS) (src : Option Nat) (dest : Digest) :
    Except CacheErr ContentFS :=
  match src with
  | none => .error .typeErrorUndefinedPath
  | some name =>
    match lookupA st.tmpFiles name with
    | none => .error .enoent
    | some bytes =>
      .ok { st with
              tmpFiles := removeA st.tmpFiles name,
              content := setA st.content dest bytes }

/-- `moveToDestination(tmp, cache, sri)` from `lib/content/write.js`: ensures
the destination directory exists, then calls
`moveFile(tmp.target, destination)` — where `tmp` is the tmp-path string, so
the source argument is `undefined`. -/
def moveToDestination (st : ContentFS) (tmpName : Nat) (sri : Digest) :
    Except CacheErr ContentFS :=
  moveFile st (tmpDotTarget tmpName) sri

/-- The tail of `write` after its argument checks: `makeTmp` (a fresh unique
temp name), `writeFile(tmp, data, { flag: wx })`, then `moveToDestination`.
On a `moveToDestination` failure the error propagates and the temp file is
left behind. -/
def writePublish (st : ContentFS) (data : Bytes) (sri : Digest) :
    ContentFS × Except CacheErr WriteResult :=
  let tmpName := st.tmpCounter
  let st₁ : ContentFS :=
    { st with
        tmpCounter := st.tmpCounter + 1,
        tmpFiles := setA st.tmpFiles tmpName data }
  match moveToDestination st₁ tmpName sri with
  | .ok st₂ => (st₂, .ok { integrity := sri, size := data.length })
  | .error e => (st₁, .error e)

/-- `write(cache, data, opts)` from `lib/content/write.js`: check
`opts.size` against `data.length` (EBADSIZE), compute the digest, check
`opts.integrity` (EINTEGRITY), then write the temp file and publish it. -/
def write (st : ContentFS) (data : Bytes) (opts : WriteOpts) :
    ContentFS × Except CacheErr WriteResult :=
  match opts.size with
  | some n =>
    if data.length ≠ n then (st, .error .ebadsize)
    else
      let sri := fromData data opts.algorithm
      match opts.integrity with
      | some expected =>
        if ¬ checkData data expected then (st, .error .eintegrity)
        else writePublish st data sri
      | none => writePublish st data sri
  | none =>
    let sri := fromData data opts.algorithm
    match opts.integrity with
    | some expected =>
      if ¬ checkData data expected then (st, .error .eintegrity)
      else writePublish st data sri
    | none => writePublish st data sri

/-- Modelled from the spec / the external `ssri` library: `integrityStream`
recomputes digest and size of the streamed bytes, then fails with EBADSIZE
when an expected size differs, or EINTEGRITY when an expected digest
differs. -/
def integrityStreamCheck (data : Bytes) (expectedIntegrity : Option Digest)
    (expectedSize : Option Nat) (algo : String) :
    Except CacheErr (Digest × Nat) :=
  let sri := fromData data algo
  match expectedSize with
  | some n =>
    if data.length ≠ n then .error .ebadsize
    else
      match expectedIntegrity with
      | some expected =>
        if ¬ checkData data expected then .error .eintegrity
        else .ok (sri, data.length)
      | none => .ok (sri, data.length)
  | none =>
    match expectedIntegrity with
    | some expected =>
      if ¬ checkData data expected then .error .eintegrity
      else .ok (sri, data.length)
    | none => .ok (sri, data.length)

/-- `pipeToTmp(inputStream, cache, tmpTarget, opts)` from
`lib/content/write.js`: pipes the input through `ssri.integrityStream` into
the temp file; on any failure the temp file is `rimraf`-ed and the error
rethrown. -/
def pipeToTmp (st : ContentFS) (tmpName : Nat) (data : Bytes)
    (opts : WriteOpts) : ContentFS × Except CacheErr (Digest × Nat) :=
  match integrityStreamCheck data opts.integrity opts.size opts.algorithm with
  | .ok res =>
    ({ st with tmpFiles := setA st.tmpFiles tmpName data }, .ok res)
  | .error e =>
    ({ st with tmpFiles := removeA st.tmpFiles tmpName }, .error e)

/-- `read(cache, integrity, opts)` from `lib/content/read.js` (single-digest
case of `withContentSri`): read the blob at the digest-derived path (ENOENT
when absent), fail EBADSIZE on an `opts.size` mismatch, then verify the bytes
against the digest (EINTEGRITY on mismatch). -/
def read (st : ContentFS) (integrity : Digest) (size : Option Nat) :
    Except CacheErr Bytes :=
  match lookupA st.content integrity with
  | none => .error .enoent
  | some data =>
    match size with
    | some n =>
      if n ≠ data.length then .error .ebadsize
      else if checkData data integrity then .ok data
      else .error .eintegrity
    | none =>
      if checkData data integrity then .ok data
      else .error .eintegrity

/-! ### Key index (`lib/entry-index.js`)

A bucket file is a sequence of lines `<sha1-of-json><TAB><json>`.  A line is
modelled either as a checksum paired with the record its JSON parses to, or
as `junk` (an empty line, a line without a TAB, or unparseable JSON). -/

/-- One record of a bucket line: `{ key, integrity, time, size, metadata }`
as serialized by `insert`.  `integrity` is `ssri.stringify(integrity)` or
`null` for a tombstone. -/
structure IndexEntry where
  key : String
  integrity : Option String
  time : Nat
  size : Nat
  metadata : String
deriving DecidableEq, Repr

/-- A deterministic hash of a string, standing in for hex `sha1`. -/
def strHash (s : String) : Nat :=
  s.toList.foldl (fun a c => a * 131 + c.toNat + 1) 7

/-- Modelled from the spec: `hashEntry` is the external `crypto` sha1 over
the serialized JSON payload of the line ("each serialized entry is prefixed
with a checksum of its own payload"); modelled as a deterministic function of
the record's fields. -/
def hashEntry (e : IndexEntry) : Nat :=
  strHash e.key * 31 +
    (match e.integrity with
     | none => 0
     | some i => 2 * strHash i + 1) * 37 +
    e.time * 41 + e.size * 43 + strHash e.metadata * 47

/-- One line of a bucket file. -/
inductive BucketLine where
  | line (checksum : Nat) (payload : IndexEntry)
  | junk
deriving DecidableEq, Repr

/-- A line is corrupt when its checksum does not match its payload, or when
it cannot be split/parsed at all. -/
def isCorrupt : BucketLine → Bool
  | .junk => true
  | .line c e => c != hashEntry e

/-- `_bucketEntries(data)` from `lib/entry-index.js`: keep, in order, the
payloads of the lines whose checksum matches; discard everything else. -/
def bucketEntries : List BucketLine → List IndexEntry
  | [] => []
  | .line c e :: rest =>
    if c = hashEntry e then e :: bucketEntries rest else bucketEntries rest
  | .junk :: rest => bucketEntries rest

/-- `insert(cache, key, integrity, opts)` restricted to its effect on the
key's bucket: append one checksummed line. -/
def insertIndex (bucket : List BucketLine) (key : String)
    (integrity : Option String) (time size : Nat) (metadata : String) :
    List BucketLine :=
  let e : IndexEntry :=
    { key := key, integrity := integrity, time := time, size := size,
      metadata := metadata }
  bucket ++ [.line (hashEntry e) e]

/-- The formatted entry returned to callers of `find`/`ls`. -/
structure FormattedEntry where
  key : String
  integrity : String
  path : String
  size : Nat
  time : Nat
  metadata : String
deriving DecidableEq, Repr

/-- Modelled from the spec: `lib/content/path` (not under `src/`) derives the
blob path deterministically and injectively from the digest string (sharded
2+2+rest of its hex form); modelled by the digest string itself. -/
def contentPathOf (integrity : String) : String := integrity

/-- `formatEntry(cache, entry)` from `lib/entry-index.js`: a missing or
JS-falsy (empty) `integrity` is a deletion and yields `null`. -/
def formatEntry (e : IndexEntry) : Option FormattedEntry :=
  match e.integrity with
  | none => none
  | some i =>
    if i = "" then none
    else
      some { key := e.key, integrity := i, path := contentPathOf i,
             size := e.size, time := e.time, metadata := e.metadata }

/-- The `reduce` inside `find`: scan the parsed entries left to right,
replacing the accumulator with `formatEntry(next)` whenever `next.key ===
key`. -/
def findReduce (entries : List IndexEntry) (key : String) :
    Option FormattedEntry :=
  entries.foldl
    (fun latest next => if next.key = key then formatEntry next else latest)
    none

/-- `find(cache, key)`: the bucket file may be missing (`none`), which is
treated as absent, not an error. -/
def find (bucket : Option (List BucketLine)) (key : String) :
    Option FormattedEntry :=
  match bucket with
  | none => none
  | some lines => findReduce (bucketEntries lines) key

/-- The specification's reading of `find`: the last parsed record whose key
equals the queried key exactly. -/
def lastMatching : List IndexEntry → String → Option IndexEntry
  | [], _ => none
  | e :: es, key =>
    match lastMatching es key with
    | some r => some r
    | none => if e.key = key then some e else none

/-- The `reduce` into a JS `Map` inside `BucketStream._transform`:
`acc.set(entry.key, entry)` for each parsed entry.  A JS `Map` keeps a key's
original insertion position and replaces its value, which is exactly
`setA`. -/
def keyToEntry (entries : List IndexEntry) : List (String × IndexEntry) :=
  entries.foldl (fun acc e => setA acc e.key e) []

/-- `BucketStream._transform` restricted to one bucket's lines: parse the
bucket, reduce it to one entry per key (last wins), format each survivor and
push only the non-null ones.  `ls`/`lsStream` produce exactly these entries
for each bucket. -/
def lsBucket (lines : List BucketLine) : List FormattedEntry :=
  (keyToEntry (bucketEntries lines)).filterMap fun p => formatEntry p.2

/-! ### Verifier / garbage collector (`lib/verify.js`) -/

/-- The statistics of the mark-and-sweep step. -/
structure GCStats where
  verifiedContent : Nat := 0
  reclaimedCount : Nat := 0
  reclaimedSize : Nat := 0
  badContentCount : Nat := 0
  keptSize : Nat := 0
deriving DecidableEq, Repr

/-- The string form of a digest as a `String` (`Integrity.toString()`). -/
def digestStr (d : Digest) : String := String.mk (digestChars d)

/-- The set of live integrity strings gathered by `garbageCollect` from
`index.lsStream(cache)`, honouring the optional caller-supplied filter. -/
def liveSet (buckets : List (List BucketLine))
    (filter : Option (FormattedEntry → Bool)) : List String :=
  ((buckets.map lsBucket).flatten.filter fun e =>
    match filter with
    | none => true
    | some f => f e).map fun e => e.integrity

/-- The sweep of `garbageCollect` over the content tree
(`lib/verify.js`): for each blob, its digest is re-derived from its path; a
live digest gets its bytes fully verified (`verifyContent`), with invalid
content unlinked and counted as reclaimed and bad, and valid content counted
as verified and its size kept; a dead digest is removed unconditionally and
counted as reclaimed.  Returns the statistics and the surviving content
tree. -/
def garbageCollect (live : List String) :
    List (Digest × Bytes) → GCStats × List (Digest × Bytes)
  | [] => ({}, [])
  | (d, bytes) :: rest =>
    let (stats, kept) := garbageCollect live rest
    if digestStr d ∈ live then
      if checkData bytes d then
        ({ stats with
             verifiedContent := stats.verifiedContent + 1,
             keptSize := stats.keptSize + bytes.length },
         (d, bytes) :: kept)
      else
        ({ stats with
             reclaimedCount := stats.reclaimedCount + 1,
             badContentCount := stats.badContentCount + 1,
             reclaimedSize := stats.reclaimedSize + bytes.length },
         kept)
    else
      ({ stats with
           reclaimedCount := stats.reclaimedCount + 1,
           reclaimedSize := stats.reclaimedSize + bytes.length },
       kept)

/-- The whole mark-and-sweep step: mark live digests from the index, then
sweep the content tree. -/
def garbageCollectRun (buckets : List (List BucketLine))
    (filter : Option (FormattedEntry → Bool))
    (content : List (Digest × Bytes)) : GCStats × List (Digest × Bytes) :=
  garbageCollect (liveSet buckets filter) content

/-- The sweep's keep-predicate: a blob survives when its path-derived digest
is live and its bytes verify against it. -/
def gcKeep (live : List String) (f : Digest × Bytes) : Bool :=
  decide (digestStr f.1 ∈ live) && checkData f.2 f.1

/-! ### The `Map`-backed facade (`index.js`, class `DestCache`) -/

/-- `INTEGRITY_ALGO` from `index.js`. -/
def INTEGRITY_ALGO : String := "md5"

/-- `Integrity.hexDigest()` as a `String`. -/
def hexDigestStr (d : Digest) : String := String.mk (hexEncode d.digest)

/-- The `CacheEntity` record stored in the `Map`. -/
structure CacheEntity where
  path : String
  size : Nat
  integrity : String
  time : Nat
  metadata : String
deriving DecidableEq, Repr

/-- The facade's state: the in-memory `Map` (insertion ordered) and the flat
cache directory, keyed by file name. -/
structure DCState where
  entries : List (String × CacheEntity) := []
  files : List (String × Bytes) := []
deriving DecidableEq, Repr

/-- `ssri.checkData(data, integrityString)`: parse the integrity string and
compare the recomputed digest. -/
def checkDataStr (data : Bytes) (integrity : String) : Bool :=
  match digestParse integrity.toList with
  | some d => checkData data d
  | none => false

/-- `DestCache.set(key, data, metadata)` from `index.js`.  The retry loop is
modelled at its deterministic fixed point (no transient `EMFILE`/`EPERM`
faults): the first `writeFile(filename, data, wx)` either creates the file,
or hits `EEXIST`, in which case the existing bytes are verified against the
digest — valid existing content is kept as-is (dedup), invalid existing
content is overwritten on the next iteration with flag `w`.  The entry is
then stored in the `Map`. -/
def destSet (st : DCState) (key : String) (data : Bytes) (time : Nat)
    (metadata : String) : DCState × CacheEntity :=
  let sri := fromData data INTEGRITY_ALGO
  let filename := hexDigestStr sri
  let entry : CacheEntity :=
    { path := filename, size := data.length, integrity := digestStr sri,
      time := time, metadata := metadata }
  let files :=
    match lookupA st.files filename with
    | none => setA st.files filename data
    | some existing =>
      if checkData existing sri then st.files
      else setA st.files filename data
  ({ entries := setA st.entries key entry, files := files }, entry)

/-- `DestCache._moveToCacheLocation(tmpFilename, key, { integrity, size },
metadata)` from `index.js`: when a file already exists at the digest path,
verify it; valid existing content means the temp file is discarded and the
pending rename fails `ENOENT` (swallowed) — dedup; an invalid existing file
makes `ssri.checkStream` raise `EINTEGRITY`, which the loop rethrows
(`throw err`), leaving the state untouched.  When no file exists
(`ENOENT` from `checkStream`), the temp file is renamed into place (a missing
temp file makes `rename` fail `ENOENT`, which is swallowed). -/
def destMoveToCacheLocation (st : DCState) (tmpFilename key : String)
    (sri : Digest) (size time : Nat) (metadata : String) :
    DCState × Except CacheErr CacheEntity :=
  let filename := hexDigestStr sri
  let entry : CacheEntity :=
    { path := filename, size := size, integrity := digestStr sri,
      time := time, metadata := metadata }
  match lookupA st.files filename with
  | some existing =>
    if checkData existing sri then
      ({ entries := setA st.entries key entry,
         files := removeA st.files tmpFilename }, .ok entry)
    else
      (st, .error .eintegrity)
  | none =>
    match lookupA st.files tmpFilename with
    | some bytes =>
      ({ entries := setA st.entries key entry,
         files := setA (removeA st.files tmpFilename) filename bytes },
       .ok entry)
    | none =>
      ({ entries := setA st.entries key entry, files := st.files },
       .ok entry)

/-- `DestCache.delete(key)` from `index.js`: remove the `Map` entry (`false`
when absent); if no remaining entry references the same integrity, unlink the
blob. -/
def destDelete (st : DCState) (key : String) : DCState × Bool :=
  match lookupA st.entries key with
  | none => (st, false)
  | some entry =>
    let remaining := removeA st.entries key
    if remaining.any fun p => p.2.integrity = entry.integrity then
      ({ entries := remaining, files := st.files }, true)
    else
      ({ entries := remaining, files := removeA st.files entry.path }, true)

/-- `DestCache.get(key)` from `index.js`: an absent key resolves with
`undefined`; otherwise the blob is read (a missing file propagates `ENOENT`)
and verified — on an integrity mismatch the entry and file are dropped and
`IntegrityError` (EINTEGRITY) is thrown. -/
def destGet (st : DCState) (key : String) :
    DCState × Except CacheErr (Option Bytes) :=
  match lookupA st.entries key with
  | none => (st, .ok none)
  | some entry =>
    match lookupA st.files entry.path with
    | none => (st, .error .enoent)
    | some data =>
      if checkDataStr data entry.integrity then (st, .ok (some data))
      else
        ({ entries := removeA st.entries key,
           files := removeA st.files entry.path }, .error .eintegrity)

/-- `DestCache.has(key)` from `index.js`: `false` when the `Map` has no
entry, otherwise the stored entry object itself — no filesystem access, no
verification. -/
def destHas (st : DCState) (key : String) : Option CacheEntity :=
  lookupA st.entries key

/-- `DestCache.getStream(key)` from `index.js`: `null` (here `none`) for an
absent key, otherwise a read stream over the blob verified against the
entry's integrity and size, whose terminal outcome is modelled by the
`Except`. -/
def destGetStream (st : DCState) (key : String) :
    Option (Except CacheErr Bytes) :=
  match lookupA st.entries key with
  | none => none
  | some entry =>
    match lookupA st.files entry.path with
    | none => some (.error .enoent)
    | some data =>
      if checkDataStr data entry.integrity then some (.ok data)
      else some (.error .eintegrity)

/-- A sequence of `DestCache.set` calls all writing the same payload, under
arbitrary keys and times (the "N duplicate writes" of the spec). -/
def destSetMany (data : Bytes) (metadata : String) :
    DCState → List (String × Nat) → DCState
  | st, [] => st
  | st, (k, t) :: rest =>
    destSetMany data metadata (destSet st k data t metadata).1 rest

/-- `getData(false, cache, key, opts)` from `get.js` with memoization off:
look up the index entry, throw `NotFoundError` (code ENOENT) when there is
none, otherwise read and verify the content by the entry's integrity. -/
def getData (bucket : Option (List BucketLine)) (st : ContentFS)
    (key : String) : Except CacheErr (Bytes × FormattedEntry) :=
  match find bucket key with
  | none => .error .enoent
  | some entry =>
    match digestParse entry.integrity.toList with
    | some d =>
      match read st d none with
      | .ok data => .ok (data, entry)
      | .error e => .error e
    | none => .error .enoent

/-! ### Helper lemmas -/

theorem hexVal_hexChar {n : Nat} (h : n < 16) : hexVal (hexChar n) = some n := by
  interval_cases n <;> decide

theorem hexDecode_hexEncode {bs : Bytes} (h : ∀ b ∈ bs, b < 256) :
    hexDecode (hexEncode bs) = some bs := by
  induction bs with
  | nil => rfl
  | cons b bs ih =>
    have hb : b < 256 := h b (List.mem_cons_self b bs)
    have hhi : b / 16 < 16 := Nat.div_lt_of_lt_mul (by omega)
    have hlo : b % 16 < 16 := Nat.mod_lt _ (by omega)
    have hrest : hexDecode (hexEncode bs) = some bs :=
      ih fun x hx => h x (List.mem_cons_of_mem _ hx)
    have hval : b / 16 * 16 + b % 16 = b := by
      have := Nat.div_add_mod b 16
      omega
    simp [hexEncode, hexDecode, hexVal_hexChar hhi, hexVal_hexChar hlo, hrest, hval]

theorem splitDash_append {pre post : List Char} (h : '-' ∉ pre) :
    splitDash (pre ++ '-' :: post) = some (pre, post) := by
  induction pre with
  | nil => simp [splitDash]
  | cons c cs ih =>
    have hc : c ≠ '-' := fun hc => h (hc ▸ List.mem_cons_self c cs)
    have hcs : '-' ∉ cs := fun hm => h (List.mem_cons_of_mem _ hm)
    simp [splitDash, hc, ih hcs]

/-- The digest string form round-trips: parsing the serialized form of a
digest yields an equal digest (spec §6, "must round-trip through
parse→serialize unchanged"), provided the algorithm name has no dash and the
digest holds genuine bytes. -/
theorem digestParse_digestChars {d : Digest} (halgo : '-' ∉ d.algorithm.toList)
    (hbytes : ∀ b ∈ d.digest, b < 256) :
    digestParse (digestChars d) = some d := by
  unfold digestParse digestChars
  rw [splitDash_append halgo]
  simp [hexDecode_hexEncode hbytes]

/-! ### Association lists

The filesystem trees (tmp workspace, content tree, `Map` contents) are
modelled as insertion-ordered association lists. -/

theorem lookupA_setA_self {α β : Type} [DecidableEq α]
    (l : List (α × β)) (k : α) (v : β) : lookupA (setA l k v) k = some v := by
  induction l with
  | nil => simp [setA, lookupA]
  | cons p ps ih =>
    by_cases h : p.1 = k
    · simp [setA, h, lookupA]
    · simp [setA, h, lookupA, ih]

theorem lookupA_setA_other {α β : Type} [DecidableEq α]
    (l : List (α × β)) (k k₂ : α) (v : β) (h : k ≠ k₂) :
    lookupA (setA l k v) k₂ = lookupA l k₂ := by
  induction l with
  | nil => simp [setA, lookupA, h]
  | cons p ps ih =>
    have hkk : ¬ k₂ = k := fun hh => h hh.symm
    by_cases hp : p.1 = k
    · simp [setA, hp, lookupA, h]
    · by_cases hp₂ : p.1 = k₂ <;> simp [setA, hp, lookupA, hp₂, hkk, ih]

theorem lookupA_removeA_self {α β : Type} [DecidableEq α]
    (l : List (α × β)) (k : α) : lookupA (removeA l k) k = none := by
  induction l with
  | nil => simp [removeA, lookupA]
  | cons p ps ih =>
    by_cases h : p.1 = k
    · simp [removeA, h, ih]
    · simp [removeA, h, lookupA, ih]

theorem lookupA_removeA_other {α β : Type} [DecidableEq α]
    (l : List (α × β)) (k k₂ : α) (h : k ≠ k₂) :
    lookupA (removeA l k) k₂ = lookupA l k₂ := by
  induction l with
  | nil => simp [removeA]
  | cons p ps ih =>
    have hkk : ¬ k₂ = k := fun hh => h hh.symm
    by_cases hp : p.1 = k
    · simp [removeA, hp, lookupA, h, ih]
    · by_cases hp₂ : p.1 = k₂ <;> simp [removeA, hp, lookupA, hp₂, hkk, ih]

theorem bucketEntries_append (a b : List BucketLine) :
    bucketEntries (a ++ b) = bucketEntries a ++ bucketEntries b := by
  induction a with
  | nil => simp [bucketEntries]
  | cons l rest ih =>
    cases l with
    | junk => simpa [bucketEntries] using ih
    | line c e =>
      by_cases h : c = hashEntry e <;> simp [bucketEntries, h, ih]

theorem findReduce_eq_lastMatching (entries : List IndexEntry) (key : String) :
    findReduce entries key =
      match lastMatching entries key with
      | some e => formatEntry e
      | none => none := by
  suffices h : ∀ acc : Option FormattedEntry,
      entries.foldl
        (fun latest next =>
          if next.key = key then formatEntry next else latest) acc =
        match lastMatching entries key with
        | some e => formatEntry e
        | none => acc by
    exact h none
  induction entries with
  | nil => intro acc; simp [lastMatching]
  | cons e es ih =>
    intro acc
    rw [List.foldl_cons, ih]
    cases hrec : lastMatching es key with
    | some r => simp [lastMatching, hrec]
    | none =>
      by_cases hk : e.key = key <;> simp [lastMatching, hrec, hk]

theorem lookupA_keyToEntry (entries : List IndexEntry) (k : String) :
    lookupA (keyToEntry entries) k = lastMatching entries k := by
  suffices h : ∀ acc : List (String × IndexEntry),
      lookupA (entries.foldl (fun acc e => setA acc e.key e) acc) k =
        match lastMatching entries k with
        | some e => some e
        | none => lookupA acc k by
    have h0 := h []
    simp only [keyToEntry]
    rw [h0]
    cases lastMatching entries k <;> simp [lookupA]
  induction entries with
  | nil => intro acc; simp [lastMatching]
  | cons e es ih =>
    intro acc
    rw [List.foldl_cons, ih]
    cases hrec : lastMatching es k with
    | some r => simp [lastMatching, hrec]
    | none =>
      by_cases hk : e.key = k
      · subst hk
        simp [lastMatching, hrec, lookupA_setA_self]
      · simp [lastMatching, hrec, hk, lookupA_setA_other _ _ _ _ hk]

theorem mem_setA {α β : Type} [DecidableEq α] {l : List (α × β)}
    {p : α × β} {k : α} {v : β} (h : p ∈ setA l k v) :
    p ∈ l ∨ p = (k, v) := by
  induction l with
  | nil => simpa [setA] using h
  | cons q qs ih =>
    by_cases hq : q.1 = k
    · simp only [setA, hq, if_pos rfl] at h
      rcases List.mem_cons.mp h with h | h
      · right; exact h
      · left; exact List.mem_cons_of_mem _ h
    · simp only [setA, hq, if_neg hq] at h
      rcases List.mem_cons.mp h with h | h
      · left; exact h ▸ List.mem_cons_self q qs
      · rcases ih h with h | h
        · left; exact List.mem_cons_of_mem _ h
        · right; exact h

theorem mem_foldl_setA (sup : List IndexEntry) :
    ∀ (entries : List IndexEntry) (acc : List (String × IndexEntry)),
      (∀ e ∈ entries, e ∈ sup) →
      (∀ q ∈ acc, q.2 ∈ sup ∧ q.1 = q.2.key) →
      ∀ q ∈ entries.foldl (fun acc e => setA acc e.key e) acc,
        q.2 ∈ sup ∧ q.1 = q.2.key := by
  intro entries
  induction entries with
  | nil => intro acc _ hacc q hq; exact hacc q hq
  | cons e es ih =>
    intro acc hsub hacc q hq
    rw [List.foldl_cons] at hq
    refine ih (setA acc e.key e)
      (fun x hx => hsub x (List.mem_cons_of_mem _ hx)) ?_ q hq
    intro r hr
    rcases mem_setA hr with hr | hr
    · exact hacc r hr
    · subst hr
      exact ⟨hsub e (List.mem_cons_self e es), rfl⟩

theorem mem_keyToEntry {entries : List IndexEntry}
    {p : String × IndexEntry} (h : p ∈ keyToEntry entries) :
    p.2 ∈ entries ∧ p.1 = p.2.key :=
  mem_foldl_setA entries entries [] (fun _ he => he) (by simp) p h

theorem keys_setA_nodup {α β : Type} [DecidableEq α]
    {l : List (α × β)} (k : α) (v : β) (h : (l.map Prod.fst).Nodup) :
    ((setA l k v).map Prod.fst).Nodup := by
  induction l with
  | nil => simp [setA]
  | cons q qs ih =>
    rw [List.map_cons, List.nodup_cons] at h
    by_cases hq : q.1 = k
    · simp only [setA]
      rw [if_pos hq, List.map_cons, List.nodup_cons]
      exact ⟨hq ▸ h.1, h.2⟩
    · simp only [setA]
      rw [if_neg hq, List.map_cons, List.nodup_cons]
      refine ⟨?_, ih h.2⟩
      intro hmem
      rcases List.mem_map.mp hmem with ⟨p, hp, hp₁⟩
      rcases mem_setA hp with hp | hp
      · exact h.1 (hp₁ ▸ List.mem_map_of_mem Prod.fst hp)
      · exact hq (by rw [← hp₁, hp])

theorem keys_keyToEntry_nodup (entries : List IndexEntry) :
    ((keyToEntry entries).map Prod.fst).Nodup := by
  suffices hgen : ∀ acc : List (String × IndexEntry),
      (acc.map Prod.fst).Nodup →
      ((entries.foldl (fun acc e => setA acc e.key e) acc).map
        Prod.fst).Nodup by
    exact hgen [] (by simp)
  induction entries with
  | nil => intro acc hacc; exact hacc
  | cons e es ih =>
    intro acc hacc
    rw [List.foldl_cons]
    exact ih _ (keys_setA_nodup e.key e hacc)

theorem lookupA_of_mem_nodup {α β : Type} [DecidableEq α]
    {l : List (α × β)} {p : α × β} (hmem : p ∈ l)
    (hnd : (l.map Prod.fst).Nodup) : lookupA l p.1 = some p.2 := by
  induction l with
  | nil => cases hmem
  | cons q qs ih =>
    rw [List.map_cons, List.nodup_cons] at hnd
    rcases List.mem_cons.mp hmem with h | h
    · subst h; simp [lookupA]
    · have hne : q.1 ≠ p.1 := by
        intro he
        exact hnd.1 (he ▸ List.mem_map_of_mem Prod.fst h)
      simp [lookupA, hne, ih h hnd.2]

theorem mem_of_lookupA {α β : Type} [DecidableEq α] {l : List (α × β)}
    {k : α} {v : β} (h : lookupA l k = some v) : (k, v) ∈ l := by
  induction l with
  | nil => cases h
  | cons p ps ih =>
    by_cases hp : p.1 = k
    · rw [lookupA, if_pos hp] at h
      injection h with h
      have hpkv : p = (k, v) := by
        cases p
        simp only at hp h
        rw [hp, h]
      rw [← hpkv]
      exact List.mem_cons_self p ps
    · rw [lookupA, if_neg hp] at h
      exact List.mem_cons_of_mem _ (ih h)

theorem mem_removeA {α β : Type} [DecidableEq α] {l : List (α × β)}
    {k : α} {p : α × β} (h : p ∈ removeA l k) : p ∈ l ∧ p.1 ≠ k := by
  induction l with
  | nil => simp [removeA] at h
  | cons q qs ih =>
    by_cases hq : q.1 = k
    · rw [removeA, if_pos hq] at h
      obtain ⟨hmem, hne⟩ := ih h
      exact ⟨List.mem_cons_of_mem _ hmem, hne⟩
    · rw [removeA, if_neg hq] at h
      rcases List.mem_cons.mp h with h | h
      · subst h; exact ⟨List.mem_cons_self p qs, hq⟩
      · obtain ⟨hmem, hne⟩ := ih h
        exact ⟨List.mem_cons_of_mem _ hmem, hne⟩

theorem formatEntry_eq_some {e : IndexEntry} {f : FormattedEntry}
    (h : formatEntry e = some f) :
    e.integrity = some f.integrity ∧ f.integrity ≠ "" ∧ f.key = e.key := by
  unfold formatEntry at h
  split at h
  · cases h
  · rename_i i hi
    by_cases h0 : i = ""
    · rw [if_pos h0] at h; cases h
    · rw [if_neg h0] at h
      injection h with h
      rw [← h]
      exact ⟨hi, h0, rfl⟩

theorem countP_keys_eq_one {α β : Type} [DecidableEq α] {l : List (α × β)}
    {k : α} {v : β} (hnd : (l.map Prod.fst).Nodup)
    (h : lookupA l k = some v) :
    l.countP (fun p => decide (p.1 = k)) = 1 := by
  induction l with
  | nil => cases h
  | cons p ps ih =>
    rw [List.map_cons, List.nodup_cons] at hnd
    by_cases hp : p.1 = k
    · have hzero : ps.countP (fun p => decide (p.1 = k)) = 0 := by
        rw [List.countP_eq_zero]
        intro q hq
        simp only [decide_eq_true_eq]
        intro hqk
        refine hnd.1 ?_
        rw [hp, ← hqk]
        exact List.mem_map_of_mem Prod.fst hq
      rw [List.countP_cons_of_pos _ _ (by simpa using hp), hzero]
    · rw [lookupA, if_neg hp] at h
      rw [List.countP_cons_of_neg _ _ (by simpa using hp)]
      exact ih hnd.2 h

theorem mem_keys_filterMap_formatEntry {l : List (String × IndexEntry)}
    {k : String} (hinv : ∀ p ∈ l, p.1 = p.2.key)
    (hk : k ∈ (l.filterMap fun p => formatEntry p.2).map fun f => f.key) :
    k ∈ l.map Prod.fst := by
  rcases List.mem_map.mp hk with ⟨f, hf, hfk⟩
  rcases List.mem_filterMap.mp hf with ⟨p, hp, hpf⟩
  rw [← hfk, (formatEntry_eq_some hpf).2.2, ← hinv p hp]
  exact List.mem_map_of_mem Prod.fst hp

theorem keys_filterMap_formatEntry_nodup (l : List (String × IndexEntry))
    (hinv : ∀ p ∈ l, p.1 = p.2.key) (hnd : (l.map Prod.fst).Nodup) :
    ((l.filterMap fun p => formatEntry p.2).map fun f => f.key).Nodup := by
  induction l with
  | nil => simp
  | cons p ps ih =>
    rw [List.map_cons, List.nodup_cons] at hnd
    have hinvr : ∀ q ∈ ps, q.1 = q.2.key :=
      fun q hq => hinv q (List.mem_cons_of_mem _ hq)
    rw [List.filterMap_cons]
    cases hfe : formatEntry p.2 with
    | none => exact ih hinvr hnd.2
    | some f =>
      rw [List.map_cons, List.nodup_cons]
      refine ⟨?_, ih hinvr hnd.2⟩
      intro hmem
      have hks : f.key ∈ ps.map Prod.fst :=
        mem_keys_filterMap_formatEntry hinvr hmem
      have hfkey : f.key = p.1 := by
        rw [(formatEntry_eq_some hfe).2.2, ← hinv p (List.mem_cons_self p ps)]
      exact hnd.1 (hfkey ▸ hks)

theorem destSet_files_keys_nodup (st : DCState) (key : String)
    (data : Bytes) (t : Nat) (m : String)
    (h : (st.files.map Prod.fst).Nodup) :
    ((destSet st key data t m).1.files.map Prod.fst).Nodup := by
  cases hl : lookupA st.files (hexDigestStr (fromData data INTEGRITY_ALGO))
    with
  | none =>
    simp only [destSet, hl]
    exact keys_setA_nodup _ _ h
  | some existing =>
    by_cases hc : checkData existing (fromData data INTEGRITY_ALGO)
    · simp only [destSet, hl, hc, if_true]
      exact h
    · simp only [Bool.not_eq_true] at hc
      simp only [destSet, hl, hc, Bool.false_eq_true, if_false]
      exact keys_setA_nodup _ _ h

theorem destSet_files_lookup_self (st : DCState) (key : String)
    (data : Bytes) (t : Nat) (m : String) :
    ∃ v, lookupA (destSet st key data t m).1.files
      (hexDigestStr (fromData data INTEGRITY_ALGO)) = some v := by
  cases hl : lookupA st.files (hexDigestStr (fromData data INTEGRITY_ALGO))
    with
  | none =>
    exact ⟨data, by simp only [destSet, hl]; exact lookupA_setA_self _ _ _⟩
  | some existing =>
    by_cases hc : checkData existing (fromData data INTEGRITY_ALGO)
    · exact ⟨existing, by simp only [destSet, hl, hc, if_true]⟩
    · refine ⟨data, ?_⟩
      simp only [Bool.not_eq_true] at hc
      simp only [destSet, hl, hc, Bool.false_eq_true, if_false]
      exact lookupA_setA_self _ _ _

theorem destSetMany_one_file (data : Bytes) (m : String) :
    ∀ (ks : List (String × Nat)) (st : DCState),
      (st.files.map Prod.fst).Nodup →
      ((destSetMany data m st ks).files.map Prod.fst).Nodup ∧
      (ks ≠ [] →
        ∃ v, lookupA (destSetMany data m st ks).files
          (hexDigestStr (fromData data INTEGRITY_ALGO)) = some v) := by
  intro ks
  induction ks with
  | nil => intro st h; exact ⟨h, fun hne => absurd rfl hne⟩
  | cons p rest ih =>
    intro st h
    obtain ⟨k, t⟩ := p
    have h1 : ((destSet st k data t m).1.files.map Prod.fst).Nodup :=
      destSet_files_keys_nodup st k data t m h
    have hrec := ih (destSet st k data t m).1 h1
    refine ⟨hrec.1, fun _ => ?_⟩
    cases rest with
    | nil =>
      simpa [destSetMany] using destSet_files_lookup_self st k data t m
    | cons q rest₂ => exact hrec.2 (List.cons_ne_nil q rest₂)

/-! ### Claim theorems -/

/-- C10: `DestCache.has` performs no filesystem access and no content
verification: its result depends only on the in-memory `Map`; it returns the
stored entry object (not a boolean) when the key is present and `false`
(`none`) when absent; consequently it still reports an entry whose
underlying blob file has been deleted from disk — a state in which `get`
fails. -/
theorem c10_has_is_memory_only :
    (∀ (entries : List (String × CacheEntity))
        (files files₂ : List (String × Bytes)) (key : String),
      destHas ⟨entries, files⟩ key = destHas ⟨entries, files₂⟩ key) ∧
    (∀ (st : DCState) (key : String) (e : CacheEntity),
      lookupA st.entries key = some e → destHas st key = some e) ∧
    (∀ (st : DCState) (key : String),
      lookupA st.entries key = none → destHas st key = none) ∧
    (∀ (entries : List (String × CacheEntity))
        (files : List (String × Bytes)) (key : String) (e : CacheEntity),
      lookupA entries key = some e → lookupA files e.path = none →
      destHas ⟨entries, files⟩ key = some e ∧
      (destGet ⟨entries, files⟩ key).2 = .error .enoent) := by
  refine ⟨fun entries files files₂ key => rfl,
    fun st key e h => h, fun st key h => h, ?_⟩
  intro entries files key e he hf
  exact ⟨he, by simp [destGet, he, hf]⟩

/-- Witness for C10: a concrete state whose blob file is missing, yet `has`
reports the entry and `get` fails. -/
theorem c10_witness :
    destHas ⟨[("k", ⟨"p", 1, "md5-01", 0, "m"⟩)], []⟩ "k" =
      some ⟨"p", 1, "md5-01", 0, "m"⟩ ∧
    (destGet ⟨[("k", ⟨"p", 1, "md5-01", 0, "m"⟩)], []⟩ "k").2 =
      .error .enoent :=
  c10_has_is_memory_only.2.2.2 [("k", ⟨"p", 1, "md5-01", 0, "m"⟩)] [] "k"
    ⟨"p", 1, "md5-01", 0, "m"⟩ (by decide) (by decide)

/-- C8 counterexample: the facade's `get` (cited by the claim) resolves
successfully with `undefined` (`none`) for a key that was never written,
instead of failing with a not-found error. -/
theorem c8_counterexample : (destGet ⟨[], []⟩ "byaka").2 = .ok none := rfl

/-- C8 (amended): for a key with no current index entry (never written, or
latest surviving record a tombstone), the cacache-style `get` (`getData` in
`get.js`) fails with the not-found error, while the `Map`-backed facade's
`get` resolves with `undefined` and its `getStream` returns `null` rather
than failing. -/
theorem c8_get_absent_key :
    (∀ (bucket : Option (List BucketLine)) (st : ContentFS) (key : String),
      find bucket key = none → getData bucket st key = .error .enoent) ∧
    (∀ (st : DCState) (key : String),
      lookupA st.entries key = none → destGet st key = (st, .ok none)) ∧
    (∀ (st : DCState) (key : String),
      lookupA st.entries key = none → destGetStream st key = none) := by
  refine ⟨?_, ?_, ?_⟩
  · intro bucket st key h; simp [getData, h]
  · intro st key h; simp [destGet, h]
  · intro st key h; simp [destGetStream, h]

/-- Witness for C8's amended statement on an empty cache. -/
theorem c8_witness :
    getData (some []) {} "k" = .error .enoent ∧
    destGet ⟨[], []⟩ "k" = (⟨[], []⟩, .ok none) ∧
    destGetStream ⟨[], []⟩ "k" = none :=
  ⟨c8_get_absent_key.1 (some []) {} "k" (by decide),
   c8_get_absent_key.2.1 ⟨[], []⟩ "k" (by decide),
   c8_get_absent_key.2.2 ⟨[], []⟩ "k" (by decide)⟩

/-- C3: `find` reduces the checksum-valid lines of the bucket to the last
one whose key field equals the queried key exactly (later lines shadow
earlier ones); a tombstone as that last matching line yields absent; a
missing bucket file yields absent rather than an error. -/
theorem c3_find_last_exact_match :
    (∀ (lines : List BucketLine) (key : String),
      find (some lines) key =
        match lastMatching (bucketEntries lines) key with
        | some e => formatEntry e
        | none => none) ∧
    (∀ (lines : List BucketLine) (key : String) (e : IndexEntry),
      lastMatching (bucketEntries lines) key = some e → e.integrity = none →
      find (some lines) key = none) ∧
    (∀ key : String, find none key = none) := by
  refine ⟨?_, ?_, fun key => rfl⟩
  · intro lines key
    exact findReduce_eq_lastMatching (bucketEntries lines) key
  · intro lines key e hl hi
    have h := findReduce_eq_lastMatching (bucketEntries lines) key
    simp only [find]
    rw [h, hl]
    simp [formatEntry, hi]

/-- Witness for C3: a key whose valid entry is shadowed by a later tombstone
is reported absent. -/
theorem c3_witness :
    find (some (insertIndex
      (insertIndex [] "k" (some "md5-01") 1 5 "m") "k" none 2 0 "m")) "k" =
      none :=
  c3_find_last_exact_match.2.1 _ "k" ⟨"k", none, 2, 0, "m"⟩ (by decide) rfl

/-- C4: a line whose checksum does not match its payload (a truncated,
tampered or otherwise corrupt line) is discarded by parsing exactly, every
other line parses as if the corrupt line were absent, and `find` for every
key returns the same result as without the corruption. -/
theorem c4_corrupt_line_discarded :
    ∀ (l₁ l₂ : List BucketLine) (bad : BucketLine) (key : String),
      isCorrupt bad = true →
      bucketEntries (l₁ ++ bad :: l₂) = bucketEntries (l₁ ++ l₂) ∧
      find (some (l₁ ++ bad :: l₂)) key = find (some (l₁ ++ l₂)) key := by
  intro l₁ l₂ bad key hbad
  have hb : bucketEntries [bad] = [] := by
    cases bad with
    | junk => rfl
    | line c e =>
      have hc : ¬ c = hashEntry e := by simpa [isCorrupt] using hbad
      simp [bucketEntries, hc]
  have heq : bucketEntries (l₁ ++ bad :: l₂) = bucketEntries (l₁ ++ l₂) := by
    have h1 : l₁ ++ bad :: l₂ = l₁ ++ ([bad] ++ l₂) := by simp
    rw [h1, bucketEntries_append, bucketEntries_append, hb,
      bucketEntries_append]
    simp
  exact ⟨heq, by simp [find, heq]⟩

/-- Witness for C4: one mismatched-checksum line between two valid lines is
dropped without touching the lookup of another key in the bucket. -/
theorem c4_witness :
    bucketEntries
        ([BucketLine.line (hashEntry ⟨"a", some "md5-01", 1, 1, "m"⟩)
            ⟨"a", some "md5-01", 1, 1, "m"⟩] ++
          BucketLine.line 0 ⟨"k", some "i", 0, 0, ""⟩ ::
            [BucketLine.line (hashEntry ⟨"b", some "md5-02", 2, 1, "m"⟩)
              ⟨"b", some "md5-02", 2, 1, "m"⟩]) =
      bucketEntries
        ([BucketLine.line (hashEntry ⟨"a", some "md5-01", 1, 1, "m"⟩)
            ⟨"a", some "md5-01", 1, 1, "m"⟩] ++
          [BucketLine.line (hashEntry ⟨"b", some "md5-02", 2, 1, "m"⟩)
            ⟨"b", some "md5-02", 2, 1, "m"⟩]) ∧
    find (some
        ([BucketLine.line (hashEntry ⟨"a", some "md5-01", 1, 1, "m"⟩)
            ⟨"a", some "md5-01", 1, 1, "m"⟩] ++
          BucketLine.line 0 ⟨"k", some "i", 0, 0, ""⟩ ::
            [BucketLine.line (hashEntry ⟨"b", some "md5-02", 2, 1, "m"⟩)
              ⟨"b", some "md5-02", 2, 1, "m"⟩])) "a" =
      find (some
        ([BucketLine.line (hashEntry ⟨"a", some "md5-01", 1, 1, "m"⟩)
            ⟨"a", some "md5-01", 1, 1, "m"⟩] ++
          [BucketLine.line (hashEntry ⟨"b", some "md5-02", 2, 1, "m"⟩)
            ⟨"b", some "md5-02", 2, 1, "m"⟩])) "a" :=
  c4_corrupt_line_discarded _ _ (.line 0 ⟨"k", some "i", 0, 0, ""⟩) "a"
    (by decide)

/-- C5: a supplied expected size or digest that differs from the payload's
computed size or digest fails the write with EBADSIZE or EINTEGRITY.  The
buffer path (`write`) fails before creating any temp file, leaving the state
untouched; the stream path (`pipeToTmp`) removes its temp file and rethrows;
in every case no blob is published under the digest-derived content path. -/
theorem c5_expected_mismatch_rejected :
    (∀ (st : ContentFS) (data : Bytes) (n : Nat) (expected : Option Digest)
        (algo : String),
      data.length ≠ n →
      write st data ⟨some n, expected, algo⟩ = (st, .error .ebadsize)) ∧
    (∀ (st : ContentFS) (data : Bytes) (expected : Digest) (algo : String),
      checkData data expected = false →
      write st data ⟨none, some expected, algo⟩ = (st, .error .eintegrity)) ∧
    (∀ (st : ContentFS) (data : Bytes) (expected : Digest) (algo : String),
      checkData data expected = false →
      write st data ⟨some data.length, some expected, algo⟩ =
        (st, .error .eintegrity)) ∧
    (∀ (st : ContentFS) (tmpName : Nat) (data : Bytes) (opts : WriteOpts)
        (e : CacheErr),
      integrityStreamCheck data opts.integrity opts.size opts.algorithm =
        .error e →
      pipeToTmp st tmpName data opts =
        ({ st with tmpFiles := removeA st.tmpFiles tmpName }, .error e)) ∧
    (∀ (data : Bytes) (n : Nat) (expected : Option Digest) (algo : String),
      data.length ≠ n →
      integrityStreamCheck data expected (some n) algo = .error .ebadsize) ∧
    (∀ (data : Bytes) (expected : Digest) (n : Option Nat) (algo : String),
      (∀ m ∈ n, data.length = m) →
      checkData data expected = false →
      integrityStreamCheck data (some expected) n algo =
        .error .eintegrity) := by
  refine ⟨?_, ?_, ?_, ?_, ?_, ?_⟩
  · intro st data n expected algo h
    simp [write, h]
  · intro st data expected algo h
    simp [write, h]
  · intro st data expected algo h
    simp [write, h]
  · intro st tmpName data opts e h
    simp [pipeToTmp, h]
  · intro data n expected algo h
    simp [integrityStreamCheck, h]
  · intro data expected n algo hn h
    cases n with
    | none => simp [integrityStreamCheck, h]
    | some m =>
      have hm : data.length = m := hn m rfl
      simp [integrityStreamCheck, hm, h]

/-- Witness for C5 at concrete mismatching writes. -/
theorem c5_witness :
    write {} [1, 2] ⟨some 5, none, "sha512"⟩ = ({}, .error .ebadsize) ∧
    write {} [1, 2] ⟨none, some (fromData [9] "sha512"), "sha512"⟩ =
      ({}, .error .eintegrity) ∧
    write {} [1, 2] ⟨some 2, some (fromData [9] "sha512"), "sha512"⟩ =
      ({}, .error .eintegrity) ∧
    pipeToTmp ⟨[(0, [1])], [], 1⟩ 0 [1, 2] ⟨some 5, none, "sha512"⟩ =
      (⟨[], [], 1⟩, .error .ebadsize) ∧
    integrityStreamCheck [1, 2] none (some 5) "sha512" = .error .ebadsize ∧
    integrityStreamCheck [1, 2] (some (fromData [9] "sha512")) none
      "sha512" = .error .eintegrity :=
  ⟨c5_expected_mismatch_rejected.1 {} [1, 2] 5 none "sha512" (by decide),
   c5_expected_mismatch_rejected.2.1 {} [1, 2] (fromData [9] "sha512")
     "sha512" (by decide),
   c5_expected_mismatch_rejected.2.2.1 {} [1, 2] (fromData [9] "sha512")
     "sha512" (by decide),
   c5_expected_mismatch_rejected.2.2.2.1 ⟨[(0, [1])], [], 1⟩ 0 [1, 2]
     ⟨some 5, none, "sha512"⟩ .ebadsize (by rfl),
   c5_expected_mismatch_rejected.2.2.2.2.1 [1, 2] 5 none "sha512"
     (by decide),
   c5_expected_mismatch_rejected.2.2.2.2.2 [1, 2] (fromData [9] "sha512")
     none "sha512" (by simp) (by decide)⟩

/-- C1 (code bug): the write/read round trip fails in the code as written.
`makeTmp` returns the tmp-path string, but `moveToDestination` reads
`tmp.target` (`undefined` on a string) and passes it to `moveFile`, so every
write — even with default options — fails with the `TypeError` after writing
its temp file, publishes nothing under the digest-derived content path, and
a subsequent `read` by the computed digest fails not-found.  The digest
string-form half of the claim does hold. -/
theorem c1_roundtrip_broken :
    (∀ (st : ContentFS) (data : Bytes),
      (write st data {}).2 = .error .typeErrorUndefinedPath ∧
      (write st data {}).1.content = st.content) ∧
    (∀ (st : ContentFS) (data : Bytes),
      lookupA st.content (fromData data "sha512") = none →
      read (write st data {}).1 (fromData data "sha512") none =
        .error .enoent) ∧
    ((write ⟨[], [], 0⟩ [104, 101, 108, 108, 111] {}).2 =
        .error .typeErrorUndefinedPath ∧
      read (write ⟨[], [], 0⟩ [104, 101, 108, 108, 111] {}).1
        (fromData [104, 101, 108, 108, 111] "sha512") none =
        .error .enoent) ∧
    (∀ data : Bytes, (∀ b ∈ data, b < 256) →
      digestParse (digestChars (fromData data "sha512")) =
        some (fromData data "sha512")) := by
  have hw : ∀ (st : ContentFS) (data : Bytes),
      (write st data {}).2 = .error .typeErrorUndefinedPath ∧
      (write st data {}).1.content = st.content := by
    intro st data
    simp [write, writePublish, moveToDestination, moveFile, tmpDotTarget]
  refine ⟨hw, ?_, ⟨(hw _ _).1, rfl⟩, ?_⟩
  · intro st data h
    have hc := (hw st data).2
    simp [read, hc, h]
  · intro data hbytes
    exact digestParse_digestChars
      (show '-' ∉ "sha512".toList by decide) hbytes

/-- Witness for C1 at the payload `hello` and a one-byte digest. -/
theorem c1_witness :
    (lookupA ({} : ContentFS).content (fromData [1] "sha512") = none ∧
      read (write {} [1] {}).1 (fromData [1] "sha512") none =
        .error .enoent) ∧
    ((∀ b ∈ [1], b < 256) ∧
      digestParse (digestChars (fromData [1] "sha512")) =
        some (fromData [1] "sha512")) :=
  ⟨⟨rfl, c1_roundtrip_broken.2.1 {} [1] rfl⟩,
   ⟨by decide, c1_roundtrip_broken.2.2.2 [1] (by decide)⟩⟩

/-- C7: with two keys mapping to the same content digest, deleting one key
leaves the shared blob on disk and the other key readable; once the last
key referencing the digest is deleted too, the blob is unlinked. -/
theorem c7_reference_counted_delete :
    ∀ (st : DCState) (k k₂ : String) (e e₂ : CacheEntity) (data : Bytes),
      k ≠ k₂ →
      lookupA st.entries k = some e →
      lookupA st.entries k₂ = some e₂ →
      e₂.integrity = e.integrity →
      e₂.path = e.path →
      lookupA st.files e₂.path = some data →
      checkDataStr data e₂.integrity = true →
      lookupA (destDelete st k).1.files e₂.path = some data ∧
      destGet (destDelete st k).1 k₂ =
        ((destDelete st k).1, .ok (some data)) ∧
      ((∀ p ∈ st.entries,
          p.1 ≠ k → p.1 ≠ k₂ → p.2.integrity ≠ e.integrity) →
        lookupA (destDelete (destDelete st k).1 k₂).1.files e₂.path =
          none) := by
  intro st k k₂ e e₂ data hne hk hk₂ hint hpath hf hchk
  have hk₂r : lookupA (removeA st.entries k) k₂ = some e₂ := by
    rw [lookupA_removeA_other _ _ _ hne]; exact hk₂
  have hmem : (k₂, e₂) ∈ removeA st.entries k := mem_of_lookupA hk₂r
  have hany :
      ((removeA st.entries k).any fun p =>
        p.2.integrity = e.integrity) = true := by
    rw [List.any_eq_true]
    exact ⟨(k₂, e₂), hmem, by simp [hint]⟩
  have hd1 : destDelete st k =
      ({ entries := removeA st.entries k, files := st.files }, true) := by
    simp [destDelete, hk, hany]
  refine ⟨by rw [hd1]; exact hf, ?_, ?_⟩
  · rw [hd1]
    simp [destGet, hk₂r, hf, hchk]
  · intro hno
    have hany₂ :
        ((removeA (removeA st.entries k) k₂).any fun p =>
          p.2.integrity = e₂.integrity) = false := by
      rw [List.any_eq_false]
      intro p hp
      obtain ⟨hp₁, hpk₂⟩ := mem_removeA hp
      obtain ⟨hp₂, hpk⟩ := mem_removeA hp₁
      simp only [decide_eq_true_eq, hint]
      exact hno p hp₂ hpk hpk₂
    have hd2 : destDelete (destDelete st k).1 k₂ =
        ({ entries := removeA (removeA st.entries k) k₂,
           files := removeA st.files e₂.path }, true) := by
      rw [hd1]
      simp [destDelete, hk₂r, hany₂]
    rw [hd2]
    exact lookupA_removeA_self _ _

/-- Witness for C7: keys `a` and `b` share the blob `01`; deleting `a`
keeps it and `b` readable, deleting `b` too unlinks it. -/
theorem c7_witness :
    lookupA (destDelete
      ⟨[("a", ⟨"01", 1, "md5-01", 0, "m"⟩),
        ("b", ⟨"01", 1, "md5-01", 0, "m"⟩)], [("01", [1])]⟩ "a").1.files
      "01" = some [1] ∧
    destGet (destDelete
      ⟨[("a", ⟨"01", 1, "md5-01", 0, "m"⟩),
        ("b", ⟨"01", 1, "md5-01", 0, "m"⟩)], [("01", [1])]⟩ "a").1 "b" =
      ((destDelete
        ⟨[("a", ⟨"01", 1, "md5-01", 0, "m"⟩),
          ("b", ⟨"01", 1, "md5-01", 0, "m"⟩)], [("01", [1])]⟩ "a").1,
       .ok (some [1])) ∧
    lookupA (destDelete (destDelete
      ⟨[("a", ⟨"01", 1, "md5-01", 0, "m"⟩),
        ("b", ⟨"01", 1, "md5-01", 0, "m"⟩)], [("01", [1])]⟩ "a").1
      "b").1.files "01" = none := by
  have h := c7_reference_counted_delete
    ⟨[("a", ⟨"01", 1, "md5-01", 0, "m"⟩),
      ("b", ⟨"01", 1, "md5-01", 0, "m"⟩)], [("01", [1])]⟩ "a" "b"
    ⟨"01", 1, "md5-01", 0, "m"⟩ ⟨"01", 1, "md5-01", 0, "m"⟩ [1]
    (by decide) (by decide) (by decide) rfl rfl (by decide) (by decide)
  exact ⟨h.1, h.2.1, h.2.2 (by decide)⟩

/-- C9: every entry produced by the per-bucket index enumeration has a
non-null integrity — each is the formatted image of a checksum-valid parsed
record carrying an integrity; a key whose last surviving record in the
bucket is a tombstone is omitted entirely; and at most one entry per key is
produced (the last record for the key wins). -/
theorem c9_ls_current_entries :
    ∀ lines : List BucketLine,
      (∀ f ∈ lsBucket lines,
        f.integrity ≠ "" ∧
        ∃ e ∈ bucketEntries lines, formatEntry e = some f) ∧
      ((lsBucket lines).map fun f => f.key).Nodup ∧
      (∀ (key : String) (e : IndexEntry),
        lastMatching (bucketEntries lines) key = some e →
        e.integrity = none →
        ∀ f ∈ lsBucket lines, f.key ≠ key) := by
  intro lines
  have hinv : ∀ p ∈ keyToEntry (bucketEntries lines), p.1 = p.2.key :=
    fun p hp => (mem_keyToEntry hp).2
  refine ⟨?_, ?_, ?_⟩
  · intro f hf
    simp only [lsBucket] at hf
    rcases List.mem_filterMap.mp hf with ⟨p, hp, hpf⟩
    exact ⟨(formatEntry_eq_some hpf).2.1, p.2, (mem_keyToEntry hp).1, hpf⟩
  · exact keys_filterMap_formatEntry_nodup _ hinv (keys_keyToEntry_nodup _)
  · intro key e hlast hnone f hf hfkey
    simp only [lsBucket] at hf
    rcases List.mem_filterMap.mp hf with ⟨p, hp, hpf⟩
    have hp1 : p.1 = key := by
      rw [hinv p hp, ← (formatEntry_eq_some hpf).2.2, hfkey]
    have hlp : lookupA (keyToEntry (bucketEntries lines)) p.1 = some p.2 :=
      lookupA_of_mem_nodup hp (keys_keyToEntry_nodup _)
    rw [hp1, lookupA_keyToEntry, hlast] at hlp
    injection hlp with hlp
    rw [hlp] at hnone
    have hsome := (formatEntry_eq_some hpf).1
    rw [hnone] at hsome
    cases hsome

/-- Witness for C9: a bucket holding a valid entry for `a` and a valid entry
for `b` shadowed by a tombstone enumerates exactly the `a` entry. -/
theorem c9_witness :
    ((⟨"a", "md5-01", "md5-01", 1, 1, "m"⟩ : FormattedEntry).integrity ≠ "" ∧
      ∃ e ∈ bucketEntries (insertIndex (insertIndex
          (insertIndex [] "a" (some "md5-01") 1 1 "m")
          "b" (some "md5-02") 2 1 "m") "b" none 3 0 "m"),
        formatEntry e =
          some ⟨"a", "md5-01", "md5-01", 1, 1, "m"⟩) ∧
    (⟨"a", "md5-01", "md5-01", 1, 1, "m"⟩ : FormattedEntry).key ≠ "b" :=
  ⟨(c9_ls_current_entries (insertIndex (insertIndex
      (insertIndex [] "a" (some "md5-01") 1 1 "m")
      "b" (some "md5-02") 2 1 "m") "b" none 3 0 "m")).1
      ⟨"a", "md5-01", "md5-01", 1, 1, "m"⟩ (by decide),
   (c9_ls_current_entries (insertIndex (insertIndex
      (insertIndex [] "a" (some "md5-01") 1 1 "m")
      "b" (some "md5-02") 2 1 "m") "b" none 3 0 "m")).2.2
      "b" ⟨"b", none, 3, 0, "m"⟩ (by decide) rfl
      ⟨"a", "md5-01", "md5-01", 1, 1, "m"⟩ (by decide)⟩

/-- C6: the mark-and-sweep step collects the live digests from the index and
then, file by file over the content tree, verifies live content (deleting
invalid bytes and counting them reclaimed and bad, counting valid bytes
verified and adding their size to kept-size) and deletes dead content
unconditionally, counting it reclaimed; a cache with one orphaned blob and
one valid referenced blob reports reclaimed-count 1 and verified-count 1. -/
theorem c6_mark_and_sweep :
    (∀ (live : List String) (content : List (Digest × Bytes)),
      (garbageCollect live content).1.verifiedContent =
        content.countP (gcKeep live) ∧
      (garbageCollect live content).1.badContentCount =
        content.countP
          (fun f => decide (digestStr f.1 ∈ live) && !checkData f.2 f.1) ∧
      (garbageCollect live content).1.reclaimedCount =
        content.countP (fun f => !gcKeep live f) ∧
      (garbageCollect live content).1.keptSize =
        ((content.filter (gcKeep live)).map fun f => f.2.length).sum ∧
      (garbageCollect live content).1.reclaimedSize =
        ((content.filter fun f => !gcKeep live f).map
          fun f => f.2.length).sum ∧
      (garbageCollect live content).2 = content.filter (gcKeep live)) ∧
    (garbageCollectRun
        [insertIndex [] "A"
          (some (digestStr (fromData [1] "sha512"))) 1 1 "m"]
        none
        [(fromData [1] "sha512", [1]),
         (fromData [2] "sha512", [2])]).1.reclaimedCount = 1 ∧
    (garbageCollectRun
        [insertIndex [] "A"
          (some (digestStr (fromData [1] "sha512"))) 1 1 "m"]
        none
        [(fromData [1] "sha512", [1]),
         (fromData [2] "sha512", [2])]).1.verifiedContent = 1 := by
  refine ⟨?_, by decide, by decide⟩
  intro live content
  induction content with
  | nil => simp [garbageCollect, gcKeep]
  | cons f rest ih =>
    obtain ⟨d, bytes⟩ := f
    obtain ⟨h1, h2, h3, h4, h5, h6⟩ := ih
    by_cases hl : digestStr d ∈ live
    · by_cases hv : checkData bytes d = true
      · simp [garbageCollect, gcKeep, hl, hv, List.countP_cons,
          List.filter_cons, h1, h2, h3, h4, h5, h6, Nat.add_comm]
      · simp only [Bool.not_eq_true] at hv
        simp [garbageCollect, gcKeep, hl, hv, List.countP_cons,
          List.filter_cons, h1, h2, h3, h4, h5, h6, Nat.add_comm]
    · simp [garbageCollect, gcKeep, hl, List.countP_cons,
        List.filter_cons, h1, h2, h3, h4, h5, h6, Nat.add_comm]

/-- C2 counterexample: with an invalid blob already on disk at the digest
path, the stream-path publisher `_moveToCacheLocation` raises the integrity
error and leaves the invalid file in place, instead of replacing it with the
new valid content as the claim states. -/
theorem c2_counterexample :
    destMoveToCacheLocation
        ⟨[], [("01", [2]), ("tmp", [1])]⟩ "tmp" "k"
        (fromData [1] "md5") 1 0 "m" =
      (⟨[], [("01", [2]), ("tmp", [1])]⟩, .error .eintegrity) := rfl

/-- C2 (amended): for the buffer path (`DestCache.set`) the claim holds: an
existing blob at the digest path never surfaces an error — valid existing
content is kept with the new copy discarded (dedup), invalid existing
content is overwritten with the new valid content — and N duplicate writes
under any keys leave exactly one file for the digest.  For the stream path
(`_moveToCacheLocation`), valid existing content discards the temp file
(dedup), but invalid existing content fails the write with the integrity
error and keeps the existing file rather than replacing it. -/
theorem c2_dedup_one_blob_per_digest :
    (∀ (st : DCState) (key : String) (data : Bytes) (t : Nat) (m : String)
        (existing : Bytes),
      lookupA st.files (hexDigestStr (fromData data INTEGRITY_ALGO)) =
        some existing →
      checkData existing (fromData data INTEGRITY_ALGO) = true →
      (destSet st key data t m).1.files = st.files) ∧
    (∀ (st : DCState) (key : String) (data : Bytes) (t : Nat) (m : String)
        (existing : Bytes),
      lookupA st.files (hexDigestStr (fromData data INTEGRITY_ALGO)) =
        some existing →
      checkData existing (fromData data INTEGRITY_ALGO) = false →
      (destSet st key data t m).1.files =
        setA st.files (hexDigestStr (fromData data INTEGRITY_ALGO)) data) ∧
    (∀ (data : Bytes) (m : String) (ks : List (String × Nat)) (st : DCState),
      (st.files.map Prod.fst).Nodup → ks ≠ [] →
      (destSetMany data m st ks).files.countP
        (fun p =>
          decide (p.1 = hexDigestStr (fromData data INTEGRITY_ALGO))) = 1) ∧
    (∀ (st : DCState) (tmp key : String) (sri : Digest) (size t : Nat)
        (m : String) (existing : Bytes),
      lookupA st.files (hexDigestStr sri) = some existing →
      checkData existing sri = true →
      (destMoveToCacheLocation st tmp key sri size t m).1.files =
        removeA st.files tmp ∧
      ∃ entry, (destMoveToCacheLocation st tmp key sri size t m).2 =
        .ok entry) ∧
    (∀ (st : DCState) (tmp key : String) (sri : Digest) (size t : Nat)
        (m : String) (existing : Bytes),
      lookupA st.files (hexDigestStr sri) = some existing →
      checkData existing sri = false →
      destMoveToCacheLocation st tmp key sri size t m =
        (st, .error .eintegrity)) := by
  refine ⟨?_, ?_, ?_, ?_, ?_⟩
  · intro st key data t m existing hl hc
    simp [destSet, hl, hc]
  · intro st key data t m existing hl hc
    simp [destSet, hl, hc]
  · intro data m ks st hnd hne
    obtain ⟨hnd₂, hv⟩ := destSetMany_one_file data m ks st hnd
    obtain ⟨v, hv⟩ := hv hne
    exact countP_keys_eq_one hnd₂ hv
  · intro st tmp key sri size t m existing hl hc
    refine ⟨?_, ⟨⟨hexDigestStr sri, size, digestStr sri, t, m⟩, ?_⟩⟩ <;>
      simp [destMoveToCacheLocation, hl, hc]
  · intro st tmp key sri size t m existing hl hc
    simp [destMoveToCacheLocation, hl, hc]

/-- Witness for C2: dedup on a valid existing blob, overwrite of an invalid
one, a single underlying file after three duplicate writes, temp discard in
the stream path, and the surfaced integrity error on an invalid existing
blob. -/
theorem c2_witness :
    (destSet ⟨[], [("01", [1])]⟩ "k" [1] 0 "m").1.files = [("01", [1])] ∧
    (destSet ⟨[], [("01", [9])]⟩ "k" [1] 0 "m").1.files =
      setA [("01", [9])] "01" [1] ∧
    (destSetMany [1] "m" ⟨[], []⟩
      [("a", 0), ("b", 1), ("c", 2)]).files.countP
        (fun p =>
          decide (p.1 = hexDigestStr (fromData [1] INTEGRITY_ALGO))) = 1 ∧
    ((destMoveToCacheLocation ⟨[], [("01", [1]), ("t", [1])]⟩ "t" "k"
        (fromData [1] "md5") 1 0 "m").1.files =
      removeA [("01", [1]), ("t", [1])] "t" ∧
      ∃ entry, (destMoveToCacheLocation ⟨[], [("01", [1]), ("t", [1])]⟩
        "t" "k" (fromData [1] "md5") 1 0 "m").2 = .ok entry) ∧
    destMoveToCacheLocation ⟨[], [("01", [2]), ("t", [1])]⟩ "t" "k"
        (fromData [1] "md5") 1 0 "m" =
      (⟨[], [("01", [2]), ("t", [1])]⟩, .error .eintegrity) :=
  ⟨c2_dedup_one_blob_per_digest.1 ⟨[], [("01", [1])]⟩ "k" [1] 0 "m" [1]
     (by decide) (by decide),
   c2_dedup_one_blob_per_digest.2.1 ⟨[], [("01", [9])]⟩ "k" [1] 0 "m" [9]
     (by decide) (by decide),
   c2_dedup_one_blob_per_digest.2.2.1 [1] "m" [("a", 0), ("b", 1), ("c", 2)]
     ⟨[], []⟩ (by decide) (by decide),
   c2_dedup_one_blob_per_digest.2.2.2.1 ⟨[], [("01", [1]), ("t", [1])]⟩
     "t" "k" (fromData [1] "md5") 1 0 "m" [1] (by decide) (by decide),
   c2_dedup_one_blob_per_digest.2.2.2.2 ⟨[], [("01", [2]), ("t", [1])]⟩
     "t" "k" (fromData [1] "md5") 1 0 "m" [2] (by decide) (by decide)⟩

end DestrCache
